import Mathlib

/-!
Shallow embedding of the transaction-processor repository.

Python strings are modelled as lists of characters (PyStr); Python dicts
(insertion-ordered, as OrderedDict and all dicts since Python 3.7) are
modelled as association lists with in-place update on existing keys and
append on fresh keys.  Fallible Python operations return Except PyErr.
External collaborators (the re module's search, the interactive prompt
sessions, the SQL engine) are parametrized: re.search becomes an oracle
argument, prompt sessions become a list of scripted operator responses,
and the database becomes the list of result rows.
-/

/-- Python string, as a list of characters. -/
abbrev PyStr := List Char

instance [DecidableEq ε] [DecidableEq α] : DecidableEq (Except ε α) := fun x y =>
  match x, y with
  | .ok a, .ok b => if h : a = b then .isTrue (by rw [h]) else .isFalse (by simp [h])
  | .error a, .error b => if h : a = b then .isTrue (by rw [h]) else .isFalse (by simp [h])
  | .ok _, .error _ => .isFalse (by simp)
  | .error _, .ok _ => .isFalse (by simp)

/-- Python runtime errors relevant to this repository: NameError
(reading an unassigned local such as in_account_section), the spec's
FormatError for malformed QIF lines, IndexError (out-of-range indexing),
and TypeError (calling list.append with the wrong number of arguments). -/
inductive PyErr where
  | nameError
  | formatError
  | indexError
  | typeError
deriving DecidableEq

/-- Python str.strip(): remove leading and trailing whitespace. -/
def pyStrip (s : PyStr) : PyStr :=
  ((s.dropWhile Char.isWhitespace).reverse.dropWhile Char.isWhitespace).reverse

/-- Python str.split(sep) for a one-character separator: "a:b".split(":")
is ["a","b"], and "".split(":") is [""]. -/
def pySplit (sep : Char) : PyStr → List PyStr
  | [] => [[]]
  | c :: cs =>
    if c = sep then [] :: pySplit sep cs
    else
      match pySplit sep cs with
      | [] => [[c]]
      | h :: t => (c :: h) :: t

/-- Python substring containment: needle in hay (True when needle is empty). -/
def pyIn (needle : PyStr) : PyStr → Bool
  | [] => needle.isPrefixOf []
  | hay@(_ :: t) => needle.isPrefixOf hay || pyIn needle t

/-- Python str.lower() (ASCII case folding suffices for this repository). -/
def pyLower (s : PyStr) : PyStr := s.map Char.toLower

/-- Python sequence indexing s[i], raising IndexError when out of range. -/
def pyIdx (l : List α) (i : Nat) : Except PyErr α :=
  match l.get? i with
  | some x => .ok x
  | none => .error .indexError

/-- Python str.removeprefix. -/
def pyDropPre (pre s : PyStr) : PyStr :=
  if pre.isPrefixOf s then s.drop pre.length else s

/-- Python dict membership test: k in d. -/
def dictContains [DecidableEq α] (d : List (α × β)) (k : α) : Bool :=
  d.any (fun kv => kv.1 = k)

/-- Python dict read: d.get(k) / d[k], as an Option. -/
def dictLookup [DecidableEq α] (d : List (α × β)) (k : α) : Option β :=
  (d.find? (fun kv => kv.1 = k)).map Prod.snd

/-- Python dict read with default. -/
def dictGetD [DecidableEq α] (d : List (α × β)) (k : α) (dflt : β) : β :=
  (dictLookup d k).getD dflt

/-- Python dict assignment d[k] = v: update in place when the key exists
(keeping its position), otherwise append at the end (insertion order). -/
def dictSet [DecidableEq α] (d : List (α × β)) (k : α) (v : β) : List (α × β) :=
  if dictContains d k then d.map (fun kv => if kv.1 = k then (k, v) else kv)
  else d ++ [(k, v)]

/-! Constants of qif_parser.py. -/

/-- Source constant AcctHeader = '!Account'. -/
def AcctHeader : PyStr := ['!', 'A', 'c', 'c', 'o', 'u', 'n', 't']
/-- Source constant AcctName = 'N'. -/
def AcctName : PyStr := ['N']
/-- Source constant AcctType = 'T'. -/
def AcctType : PyStr := ['T']
/-- Source constant TxnHeader = '!Type'. -/
def TxnHeader : PyStr := ['!', 'T', 'y', 'p', 'e']
/-- Source constant RecordBegin = 'C'. -/
def RecordBegin : PyStr := ['C']
/-- Source constant TxnDate = 'D'. -/
def TxnDate : PyStr := ['D']
/-- Source constant TxnCheckNumber = 'N'. -/
def TxnCheckNumber : PyStr := ['N']
/-- Source constant TxnPayee = 'P'. -/
def TxnPayee : PyStr := ['P']
/-- Source constant TxnAmount = 'T'. -/
def TxnAmount : PyStr := ['T']
/-- Source constant TxnCategory = 'L'. -/
def TxnCategory : PyStr := ['L']
/-- Source constant RecordEnd = '^'. -/
def RecordEnd : PyStr := ['^']

/-- Record: an insertion-ordered mapping from field tag to value
(an OrderedDict in the source). -/
abbrev PyDict := List (PyStr × PyStr)

/-- QIFParser state after initialization: account_info, transactions and
transaction_type (the fields set by __init__ and filled by the init_from_*
methods). -/
structure QIFDoc where
  account_info : PyDict
  transactions : List PyDict
  transaction_type : Option PyStr
deriving DecidableEq

/-- Intermediate state of the init_from_qif loop: the parser fields plus
the loop locals current_transaction and in_account_section.  The local
in_account_section is an Option: none models the Python local before its
first assignment (reading it then raises NameError). -/
structure ParseState where
  account_info : PyDict
  transactions : List PyDict
  transaction_type : Option PyStr
  current_transaction : PyDict
  in_account_section : Option Bool
deriving DecidableEq

/-- Body of the init_from_qif loop (qif_parser.py lines 35-60) for one raw
input line: strip, skip blanks, handle the !Account sentinel, !Type lines,
the record terminator, and generic tag+value lines. -/
def initFromQifStep (st : ParseState) (rawLine : PyStr) : Except PyErr ParseState :=
  match pyStrip rawLine with
  | [] => .ok st
  | line@(c :: cs) =>
    if line = AcctHeader then
      .ok { st with in_account_section := some true,
                    account_info := dictSet [] line [] }
    else if TxnHeader.isPrefixOf line then
      match (pySplit ':' line).get? 1 with
      | some t => .ok { st with transaction_type := some t }
      | none => .error .indexError
    else if line = RecordEnd then
      match st.in_account_section with
      | none => .error .nameError
      | some true =>
        .ok { st with account_info := dictSet st.account_info RecordEnd [],
                      in_account_section := some false }
      | some false =>
        .ok { st with transactions :=
                        st.transactions ++ [dictSet st.current_transaction RecordEnd []],
                      current_transaction := [] }
    else
      match st.in_account_section with
      | none => .error .nameError
      | some true =>
        .ok { st with account_info := dictSet st.account_info [c] (pyStrip cs) }
      | some false =>
        .ok { st with current_transaction := dictSet st.current_transaction [c] (pyStrip cs) }

/-- Run the init_from_qif loop over the remaining lines. -/
def runParse (st : ParseState) : List PyStr → Except PyErr ParseState
  | [] => .ok st
  | l :: ls =>
    match initFromQifStep st l with
    | .ok st' => runParse st' ls
    | .error e => .error e

/-- QIFParser.init_from_qif on a freshly constructed parser, taking the
file's lines (newline terminators removed; the strip in the loop removes
them in the source).  The loop local current_transaction is discarded at
the end exactly as in the source (a transaction is only appended on a
terminator line). -/
def init_from_qif (lines : List PyStr) : Except PyErr QIFDoc :=
  (runParse ⟨[], [], none, [], none⟩ lines).map
    (fun st => ⟨st.account_info, st.transactions, st.transaction_type⟩)

/-- Account configuration for one account (account-config.json entry):
full-account-name, account-type, and the colspec column indices. -/
structure AcctCfg where
  full_account_name : PyStr
  account_type : PyStr
  colspec_date : Nat
  colspec_name : Nat
  colspec_amount : Nat
deriving DecidableEq

/-- Body of the init_from_csv loop (qif_parser.py lines 69-78): build one
transaction record from one CSV row, reading the date, name and amount
columns given by the colspec (each read can raise IndexError, in the same
order as the source assignments). -/
def csvTxn (acct_cfg : AcctCfg) (t : List PyStr) : Except PyErr PyDict :=
  match pyIdx t acct_cfg.colspec_date with
  | .error e => .error e
  | .ok date =>
    match pyIdx t acct_cfg.colspec_name with
    | .error e => .error e
    | .ok name =>
      match pyIdx t acct_cfg.colspec_amount with
      | .error e => .error e
      | .ok amount =>
        .ok (dictSet (dictSet (dictSet (dictSet (dictSet (dictSet (dictSet []
          RecordBegin []) TxnDate date) TxnCheckNumber "N/A".data)
          TxnPayee name) TxnAmount amount) TxnCategory []) RecordEnd [])

/-- Loop of init_from_csv: one transaction appended per CSV row, in order. -/
def csvTxns (acct_cfg : AcctCfg) : List (List PyStr) → Except PyErr (List PyDict)
  | [] => .ok []
  | t :: ts =>
    match csvTxn acct_cfg t with
    | .error e => .error e
    | .ok txn =>
      match csvTxns acct_cfg ts with
      | .error e => .error e
      | .ok rest => .ok (txn :: rest)

/-- QIFParser.init_from_csv on a freshly constructed parser: builds the
account header from the configuration and one transaction per CSV row,
with check number fixed to 'N/A' and category set to '' (the empty
string). -/
def init_from_csv (csv_input : List (List PyStr)) (acct_cfg : AcctCfg) :
    Except PyErr QIFDoc :=
  match csvTxns acct_cfg csv_input with
  | .error e => .error e
  | .ok transactions =>
    .ok ⟨dictSet (dictSet (dictSet (dictSet [] AcctHeader [])
           AcctName acct_cfg.full_account_name)
           AcctType acct_cfg.account_type)
           RecordEnd [],
         transactions, some acct_cfg.account_type⟩

/-- QIFParser.sort_transaction field_order list. -/
def field_order : List PyStr :=
  [RecordBegin, TxnDate, TxnCheckNumber, TxnPayee, TxnAmount, TxnCategory, RecordEnd]

/-- QIFParser.sort_transaction: the fields of txn that are present, in the
fixed canonical order. -/
def sort_transaction (txn : PyDict) : PyDict :=
  field_order.filterMap (fun field => (dictLookup txn field).map (fun v => (field, v)))

/-- Rendering of self.transaction_type inside the f-string of write:
Python formats None as the four characters None. -/
def pyFormatOpt : Option PyStr → PyStr
  | some s => s
  | none => "None".data

/-- QIFParser.write, at line granularity: the account header fields in
capture order, the !Type line, then each transaction's fields in
canonical order.  Each emitted line is key ++ value (the source writes
key, value and a newline). -/
def writeLines (doc : QIFDoc) : List PyStr :=
  doc.account_info.map (fun kv => kv.1 ++ kv.2)
    ++ [['!', 'T', 'y', 'p', 'e', ':'] ++ pyFormatOpt doc.transaction_type]
    ++ (doc.transactions.map
          (fun txn => (sort_transaction txn).map (fun kv => kv.1 ++ kv.2))).flatten

/-- Full byte content produced by QIFParser.write: every line followed by
a newline character. -/
def qifContent (doc : QIFDoc) : PyStr :=
  ((writeLines doc).map (fun l => l ++ ['\n'])).flatten

/-- Hygiene condition on a stored field value under which a written line
reparses to the same value: the value carries no surrounding whitespace
(the parser strips values) and no embedded newline (a newline would split
the written line in two). -/
def goodValue (v : PyStr) : Bool :=
  pyStrip v == v && decide ('\n' ∉ v)

/-- Shape of a mid-header entry that the writer emits and the parser
reads back unchanged: a single-character tag that is not whitespace, not
the sentinel-starting bang and not the terminator caret, with a hygienic
value. -/
def goodHeaderEntry (kv : PyStr × PyStr) : Bool :=
  match kv.1 with
  | [c] => !c.isWhitespace && decide (c ≠ '!') && decide (c ≠ '^') && goodValue kv.2
  | _ => false

/-- Well-formed account header as captured by parsing or the CSV adapter:
the !Account marker first, then tag entries, then the terminator, with
distinct keys. -/
def WFHeader (acc : PyDict) : Prop :=
  ∃ mid, acc = (AcctHeader, []) :: mid ++ [(RecordEnd, [])]
    ∧ (∀ kv ∈ mid, goodHeaderEntry kv = true)
    ∧ (mid.map Prod.fst).Nodup

/-- Well-formed transaction-type label: present, whitespace-trimmed, with
no colon (the parser keeps only the token after the first colon) and no
newline. -/
def WFType : Option PyStr → Prop
  | none => False
  | some t => pyStrip t = t ∧ ':' ∉ t ∧ '\n' ∉ t

/-- Well-formed transaction record: already in canonical field order (the
claim's premise), closed by a terminator entry with empty value, with
hygienic values. -/
def WFTxn (tx : PyDict) : Prop :=
  sort_transaction tx = tx ∧ dictLookup tx RecordEnd = some []
    ∧ ∀ kv ∈ tx, goodValue kv.2 = true

/-- Well-formed document: the canonical-input premise of the round-trip
property, as forced by the parser's trimming behaviour. -/
def WellFormedDoc (doc : QIFDoc) : Prop :=
  WFHeader doc.account_info ∧ WFType doc.transaction_type
    ∧ ∀ tx ∈ doc.transactions, WFTxn tx

/-! process_transactions.py: matcher and categorization. -/

/-- Rule dictionary entry of the lookup store: payee holds the pattern
string and type holds the match kind ('regex' or 'literal'). -/
structure Rule where
  payee : PyStr
  type : PyStr
deriving DecidableEq

/-- Lookup store in memory: category name mapped to its ordered rule list. -/
abbrev Lookup := List (PyStr × List Rule)

/-- match_pattern (process_transactions.py lines 68-73).  The re.search
call is an external collaborator and is passed in as the oracle reSearch
(reSearch pat s decides whether an unanchored case-sensitive search of
pat finds a match in s). -/
def match_pattern (reSearch : PyStr → PyStr → Bool) (pattern : Rule) (payee : PyStr) : Bool :=
  if pattern.type = "regex".data then reSearch pattern.payee payee
  else if pattern.type = "literal".data then pyIn (pyLower pattern.payee) (pyLower payee)
  else false

/-- categorize_transaction (process_transactions.py lines 57-65): empty or
all-whitespace payee returns None immediately; otherwise the first
category (in store iteration order) one of whose rules matches. -/
def categorize_transaction (reSearch : PyStr → PyStr → Bool) (payee : PyStr)
    (lookup : Lookup) : Option PyStr :=
  if pyStrip payee = [] then none
  else
    (lookup.find? (fun cp => cp.2.any (fun entry => match_pattern reSearch entry payee))).map
      Prod.fst

/-! category_manager.py. -/

/-- CategoryManager.UNCATEGORIZED_ACCOUNT = 'Unspecified'. -/
def UNCATEGORIZED_ACCOUNT : PyStr := "Unspecified".data

/-- Guard of update_lookup (category_manager.py lines 32-33): when the
category key is absent, assign it the empty rule list. -/
def ensureCategory (lookup_data : Lookup) (category : PyStr) : Lookup :=
  if dictContains lookup_data category then lookup_data
  else dictSet lookup_data category []

/-- CategoryManager.update_lookup (category_manager.py lines 31-39): ensure
the category key exists, then append the new rule only when no existing
rule of that category already has an identical pattern string. -/
def update_lookup (lookup_data : Lookup) (category pattern match_type : PyStr) : Lookup :=
  if (dictGetD (ensureCategory lookup_data category) category []).any
      (fun entry => entry.payee = pattern) then
    ensureCategory lookup_data category
  else
    dictSet (ensureCategory lookup_data category) category
      (dictGetD (ensureCategory lookup_data category) category [] ++ [⟨pattern, match_type⟩])

/-- Invariant of the lookup store claimed by the spec: within each
category, no two rules have an identical pattern string. -/
def NoDupPatterns (store : Lookup) : Prop :=
  ∀ cp ∈ store, (cp.2.map Rule.payee).Nodup

/-- collect_category (process_transactions.py lines 89-97), with the
prompt session replaced by the list of the operator's successive
responses.  Each response is stripped; an empty response is replaced by
the uncategorized sentinel; the loop returns only when the resulting
category is a member of categories_list, otherwise it re-prompts.  The
result is none when the response script is exhausted with no return
(the source would keep prompting). -/
def collect_category (categories_list : List PyStr) : List PyStr → Option PyStr
  | [] => none
  | response :: rest =>
    let category := if pyStrip response = [] then UNCATEGORIZED_ACCOUNT else pyStrip response
    if category ∈ categories_list then some category
    else collect_category categories_list rest

/-! export_accounts.py. -/

/-- Row produced by the recursive accounts query, with the columns of the
final SELECT. -/
structure GnucashRow where
  child_code : PyStr
  fullname : PyStr
  name : PyStr
  parent_name : PyStr
  parent_code : PyStr
  account_type : PyStr
  description : PyStr
  hidden : PyStr
  placeholder : PyStr
deriving DecidableEq

/-- Python's list.append called with a tuple of positional arguments: it
accepts exactly one argument, any other arity raises TypeError. -/
def pyListAppend (l : List α) (args : List α) : Except PyErr (List α) :=
  if args.length = 1 then .ok (l ++ args) else .error .typeError

/-- export_gnucash_accounts (export_accounts.py lines 98-132), with the
database engine abstracted to the list of rows the query returns: append
the header row, then one row per account, each via list.append with nine
positional arguments. -/
def export_gnucash_accounts (result : List GnucashRow) : Except PyErr (List PyStr) := do
  let accounts : List PyStr := []
  let accounts ← pyListAppend accounts
    ["account_code".data, "fullname".data, "name".data, "parent_name".data,
     "parent_code".data, "account_type".data, "description".data, "hidden".data,
     "placeholder".data]
  let accounts ← result.foldlM (fun acc row =>
    pyListAppend acc
      [row.child_code, pyDropPre "Root Account:".data row.fullname, row.name,
       row.parent_name, row.parent_code, row.account_type, row.description,
       row.hidden, row.placeholder]) accounts
  pure accounts

/-- get_gnucash_accounts (process_transactions.py lines 52-54): drop the
header row of export_gnucash_accounts and take element 1 of each entry
(a one-character string, since the entries are strings). -/
def get_gnucash_accounts (result : List GnucashRow) : Except PyErr (List PyStr) := do
  let accounts := (← export_gnucash_accounts result).drop 1
  accounts.mapM (fun account => (pyIdx account 1).map (fun c => [c]))

/-! Basic lemmas about the Python-semantics helpers. -/

theorem dictContains_iff [DecidableEq α] (d : List (α × β)) (k : α) :
    dictContains d k = true ↔ k ∈ d.map Prod.fst := by
  simp only [dictContains, List.any_eq_true, List.mem_map, decide_eq_true_eq]

theorem dictSet_fresh [DecidableEq α] (d : List (α × β)) (k : α) (v : β)
    (h : k ∉ d.map Prod.fst) : dictSet d k v = d ++ [(k, v)] := by
  have hc : ¬ dictContains d k = true := fun hh => h ((dictContains_iff d k).mp hh)
  simp [dictSet, hc]

theorem pyIn_eq_true_iff (n : PyStr) : ∀ h : PyStr, pyIn n h = true ↔ n <:+: h := by
  intro h
  induction h with
  | nil =>
    simp [pyIn, List.infix_nil, List.prefix_nil]
  | cons c t ih =>
    rw [pyIn]
    simp [ List.isPrefixOf_iff_prefix, ih, List.infix_cons_iff]

example : pySplit ':' "!Type:Bank".data = ["!Type".data, "Bank".data] := by decide
example : pyStrip "  a b ".data = "a b".data := by decide
example : pyIn "webid".data "pcs svc web id: 0000".data = false := by decide
example : pyIn "acme".data "my acme store".data = true := by decide
example : init_from_qif ["!Account".data, "NChk".data, "^".data, "!Type:Bank".data,
    "PX".data, "^".data] =
    .ok ⟨[(AcctHeader, []), ("N".data, "Chk".data), (RecordEnd, [])],
         [[(TxnPayee, "X".data), (RecordEnd, [])]], some "Bank".data⟩ := by decide

/-! Claim C10. -/

/-- C10: every call to export_gnucash_accounts raises a TypeError before
returning, because list.append is invoked with nine positional arguments
(already for the header row); consequently get_gnucash_accounts can never
return a category list on any input. -/
theorem export_gnucash_accounts_always_typeError (result : List GnucashRow) :
    export_gnucash_accounts result = .error .typeError
    ∧ get_gnucash_accounts result = .error .typeError := by
  constructor <;> rfl

/-! Claim C4. -/

/-- C4: a rule of kind regex matches iff the external unanchored
case-sensitive regex search (the reSearch oracle standing for re.search)
finds a match of the pattern in the payee; a rule of kind literal matches
iff the lowercased pattern is a substring of the lowercased payee; in
particular the literal pattern "webid" does not match the payee
"PCS SVC WEB ID: 0000". -/
theorem match_pattern_characterization (reSearch : PyStr → PyStr → Bool)
    (rule : Rule) (payee : PyStr) :
    (rule.type = "regex".data →
      match_pattern reSearch rule payee = reSearch rule.payee payee)
    ∧ (rule.type = "literal".data →
      (match_pattern reSearch rule payee = true ↔ pyLower rule.payee <:+: pyLower payee))
    ∧ match_pattern reSearch ⟨"webid".data, "literal".data⟩ "PCS SVC WEB ID: 0000".data
        = false := by
  refine ⟨fun h => ?_, fun h => ?_, ?_⟩
  · simp [match_pattern, h]
  · have hne : ("literal".data : PyStr) ≠ "regex".data := by decide
    rw [match_pattern, h]
    rw [if_neg hne, if_pos rfl]
    exact pyIn_eq_true_iff _ _
  · rfl

/-- Witness for C4 at a concrete rule and payee: the literal
characterization applies to the rule from the spec's test case, and that
rule does not match. -/
theorem match_pattern_characterization_witness :
    (match_pattern (fun _ _ => false) ⟨"webid".data, "literal".data⟩
        "PCS SVC WEB ID: 0000".data = true
      ↔ pyLower "webid".data <:+: pyLower "PCS SVC WEB ID: 0000".data)
    ∧ match_pattern (fun _ _ => false) ⟨"webid".data, "literal".data⟩
        "PCS SVC WEB ID: 0000".data = false :=
  ⟨(match_pattern_characterization (fun _ _ => false)
      ⟨"webid".data, "literal".data⟩ "PCS SVC WEB ID: 0000".data).2.1 rfl,
   (match_pattern_characterization (fun _ _ => false)
      ⟨"webid".data, "literal".data⟩ "PCS SVC WEB ID: 0000".data).2.2⟩

/-! Claim C5. -/

/-- C5: for every lookup store state and every match oracle, classifying
an empty or all-whitespace payee returns none immediately; no rule is
evaluated (the result does not depend on the oracle or the store). -/
theorem categorize_transaction_blank_payee (reSearch : PyStr → PyStr → Bool)
    (lookup : Lookup) (payee : PyStr) (h : pyStrip payee = []) :
    categorize_transaction reSearch payee lookup = none := by
  simp [categorize_transaction, h]

/-- Witness for C5: an all-whitespace payee classifies to none even when
the store holds a rule and the oracle matches everything. -/
theorem categorize_transaction_blank_payee_witness :
    categorize_transaction (fun _ _ => true) "   ".data
      [("Expenses:Food".data, [⟨"a".data, "literal".data⟩])] = none :=
  categorize_transaction_blank_payee (fun _ _ => true)
    [("Expenses:Food".data, [⟨"a".data, "literal".data⟩])] "   ".data (by decide)

/-! Claim C7. -/

/-- C7, evaluation at the failing input: with valid-category list
["Expenses"] the operator's empty response is mapped to the sentinel
"Unspecified", which is not in the list, so collect_category keeps
re-prompting (script exhausted: no value returned) instead of returning
the sentinel; it returns the sentinel only when the sentinel happens to be
a member of the valid-category list. -/
theorem collect_category_empty_response_divergence :
    collect_category ["Expenses".data] ["".data] = none
    ∧ collect_category [UNCATEGORIZED_ACCOUNT] ["".data] = some UNCATEGORIZED_ACCOUNT := by
  constructor <;> rfl

/-! Claim C3. -/

/-- C3, counterexample: on a concrete CSV row, init_from_csv does not
leave the category field unset — it sets it to the empty string (lookup
yields some "" rather than none) — and sort_transaction therefore emits
the category tag L for the uncategorized transaction (the serialized
key order is the full field_order, L included) instead of omitting it. -/
theorem init_from_csv_category_counterexample :
    (init_from_csv [["01/01/2023".data, "ACME WEB ID: 123".data, "100.00".data]]
        ⟨"Assets:Checking".data, "Bank".data, 0, 1, 2⟩).map
      (fun doc => doc.transactions.map
        (fun tx => (dictLookup tx TxnCategory,
                    ((sort_transaction tx).map Prod.fst).contains TxnCategory)))
    = .ok [(some [], true)] := by decide

/-- Decomposition of one CSV-adapted transaction: whenever the row reads
succeed, the record is exactly the seven fields in build order, with
check number 'N/A' and category ''. -/
theorem csvTxn_eq_ok (acct_cfg : AcctCfg) (t : List PyStr) (tx : PyDict)
    (h : csvTxn acct_cfg t = .ok tx) :
    ∃ d n a, tx = [(RecordBegin, []), (TxnDate, d), (TxnCheckNumber, "N/A".data),
      (TxnPayee, n), (TxnAmount, a), (TxnCategory, []), (RecordEnd, [])] := by
  unfold csvTxn at h
  cases hd : pyIdx t acct_cfg.colspec_date with
  | error e => rw [hd] at h; exact absurd h (by simp)
  | ok d =>
    cases hn : pyIdx t acct_cfg.colspec_name with
    | error e => rw [hd, hn] at h; exact absurd h (by simp)
    | ok n =>
      cases ha : pyIdx t acct_cfg.colspec_amount with
      | error e => rw [hd, hn, ha] at h; exact absurd h (by simp)
      | ok a =>
        rw [hd, hn, ha] at h
        simp only [Except.ok.injEq] at h
        exact ⟨d, n, a, h.symm⟩

/-- Membership in the transactions produced by the init_from_csv loop. -/
theorem csvTxns_mem (acct_cfg : AcctCfg) :
    ∀ (rows : List (List PyStr)) (res : List PyDict),
      csvTxns acct_cfg rows = .ok res → ∀ tx ∈ res, ∃ t, csvTxn acct_cfg t = .ok tx := by
  intro rows
  induction rows with
  | nil =>
    intro res h tx htx
    simp only [csvTxns, Except.ok.injEq] at h
    subst h; simp at htx
  | cons t ts ih =>
    intro res h tx htx
    rw [csvTxns] at h
    cases hx : csvTxn acct_cfg t with
    | error e => rw [hx] at h; exact absurd h (by simp)
    | ok x =>
      cases hts : csvTxns acct_cfg ts with
      | error e => rw [hx, hts] at h; exact absurd h (by simp)
      | ok xs =>
        rw [hx, hts] at h
        simp only [Except.ok.injEq] at h
        subst h
        rcases List.mem_cons.mp htx with htx | htx
        · subst htx; exact ⟨t, hx⟩
        · exact ih xs hts tx htx

/-- C3 as amended: every transaction produced by init_from_csv has its
category field set to the empty string (not unset), and serializing it
emits a category line with an empty value (the pair (L, "") appears in
sort_transaction's output) rather than omitting the category line. -/
theorem init_from_csv_category_empty_emitted
    (csv_input : List (List PyStr)) (acct_cfg : AcctCfg) (doc : QIFDoc) (tx : PyDict)
    (hok : init_from_csv csv_input acct_cfg = .ok doc)
    (htx : tx ∈ doc.transactions) :
    dictLookup tx TxnCategory = some [] ∧ (TxnCategory, ([] : PyStr)) ∈ sort_transaction tx := by
  unfold init_from_csv at hok
  cases hts : csvTxns acct_cfg csv_input with
  | error e => rw [hts] at hok; exact absurd hok (by simp)
  | ok ts =>
    rw [hts] at hok
    simp only [Except.ok.injEq] at hok
    subst hok
    obtain ⟨t, ht⟩ := csvTxns_mem acct_cfg csv_input ts hts tx htx
    obtain ⟨d, n, a, rfl⟩ := csvTxn_eq_ok acct_cfg t tx ht
    constructor
    · rfl
    · show (TxnCategory, ([] : PyStr)) ∈
        [(RecordBegin, []), (TxnDate, d), (TxnCheckNumber, "N/A".data),
         (TxnPayee, n), (TxnAmount, a), (TxnCategory, []), (RecordEnd, [])]
      simp

/-- Witness for the amended C3 at a concrete CSV input. -/
theorem init_from_csv_category_empty_emitted_witness :
    dictLookup [(RecordBegin, []), (TxnDate, "01/01/2023".data),
        (TxnCheckNumber, "N/A".data), (TxnPayee, "ACME".data),
        (TxnAmount, "100.00".data), (TxnCategory, []), (RecordEnd, [])] TxnCategory
      = some []
    ∧ (TxnCategory, ([] : PyStr)) ∈ sort_transaction
        [(RecordBegin, []), (TxnDate, "01/01/2023".data),
         (TxnCheckNumber, "N/A".data), (TxnPayee, "ACME".data),
         (TxnAmount, "100.00".data), (TxnCategory, []), (RecordEnd, [])] :=
  init_from_csv_category_empty_emitted
    [["01/01/2023".data, "ACME".data, "100.00".data]]
    (AcctCfg.mk "Assets:Checking".data "Bank".data 0 1 2)
    (QIFDoc.mk
      [(AcctHeader, []), (AcctName, "Assets:Checking".data),
       (AcctType, "Bank".data), (RecordEnd, [])]
      [[(RecordBegin, []), (TxnDate, "01/01/2023".data),
        (TxnCheckNumber, "N/A".data), (TxnPayee, "ACME".data),
        (TxnAmount, "100.00".data), (TxnCategory, []), (RecordEnd, [])]]
      (some "Bank".data))
    [(RecordBegin, []), (TxnDate, "01/01/2023".data),
     (TxnCheckNumber, "N/A".data), (TxnPayee, "ACME".data),
     (TxnAmount, "100.00".data), (TxnCategory, []), (RecordEnd, [])]
    (by decide) (by decide)

/-! Claim C9. -/

/-- Blank lines (empty after strip) are skipped by the loop body. -/
theorem initFromQifStep_blank (st : ParseState) (b : PyStr) (h : pyStrip b = []) :
    initFromQifStep st b = .ok st := by
  unfold initFromQifStep
  rw [h]

/-- Leading blank lines do not change the parse. -/
theorem runParse_blanks (blanks : List PyStr) (h : ∀ b ∈ blanks, pyStrip b = [])
    (st : ParseState) (ls : List PyStr) :
    runParse st (blanks ++ ls) = runParse st ls := by
  induction blanks with
  | nil => rfl
  | cons b bs ih =>
    rw [List.cons_append, runParse, initFromQifStep_blank st b (h b (by simp))]
    exact ih (fun x hx => h x (by simp [hx]))

/-- C9: on an input whose first non-blank line is neither the !Account
sentinel nor a !Type line (for example a bare terminator or a data line),
init_from_qif fails with NameError: the local in_account_section is read
before any assignment.  It does not raise the spec's FormatError. -/
theorem init_from_qif_first_line_nameError
    (blanks : List PyStr) (l : PyStr) (rest : List PyStr)
    (hb : ∀ b ∈ blanks, pyStrip b = [])
    (hne : pyStrip l ≠ [])
    (hacct : pyStrip l ≠ AcctHeader)
    (htype : ¬ TxnHeader.isPrefixOf (pyStrip l)) :
    init_from_qif (blanks ++ l :: rest) = .error .nameError := by
  unfold init_from_qif
  rw [runParse_blanks blanks hb]
  have hstep : initFromQifStep ⟨[], [], none, [], none⟩ l = .error .nameError := by
    unfold initFromQifStep
    rcases hp : pyStrip l with _ | ⟨c, cs⟩
    · exact absurd hp hne
    · rw [hp] at hacct htype
      simp only []
      rw [if_neg hacct, if_neg htype]
      by_cases hre : (c :: cs) = RecordEnd
      · rw [if_pos hre]
      · rw [if_neg hre]
  rw [runParse, hstep]
  rfl

/-- Witness for C9: a file whose first line is a bare terminator. -/
theorem init_from_qif_first_line_nameError_witness :
    init_from_qif (([] : List PyStr) ++ "^".data :: []) = .error .nameError :=
  init_from_qif_first_line_nameError [] "^".data []
    (by intro b hb; simp at hb) (by decide) (by decide) (by decide)

/-! Claim C8. -/

/-- Loop body never produces the FormatError of the spec's taxonomy: the
only errors it can raise are NameError (unassigned in_account_section)
and IndexError (a !Type line with no colon). -/
theorem initFromQifStep_ne_formatError (st : ParseState) (l : PyStr) :
    initFromQifStep st l ≠ .error .formatError := by
  unfold initFromQifStep
  rcases hp : pyStrip l with _ | ⟨c, cs⟩
  · simp
  · simp only []
    by_cases h1 : (c :: cs) = AcctHeader
    · rw [if_pos h1]; simp
    · rw [if_neg h1]
      by_cases h2 : TxnHeader.isPrefixOf (c :: cs)
      · rw [if_pos h2]
        cases (pySplit ':' (c :: cs)).get? 1 <;> simp
      · rw [if_neg h2]
        by_cases h3 : (c :: cs) = RecordEnd
        · rw [if_pos h3]
          rcases st.in_account_section with _ | ⟨_ | _⟩ <;> simp
        · rw [if_neg h3]
          rcases st.in_account_section with _ | ⟨_ | _⟩ <;> simp

/-- The whole parse never yields FormatError. -/
theorem runParse_ne_formatError (ls : List PyStr) :
    ∀ st : ParseState, runParse st ls ≠ .error .formatError := by
  induction ls with
  | nil => intro st; simp [runParse]
  | cons l ls ih =>
    intro st
    rw [runParse]
    cases h : initFromQifStep st l with
    | ok st' => exact ih st'
    | error e =>
      intro hc
      simp only [Except.error.injEq] at hc
      exact initFromQifStep_ne_formatError st l (hc ▸ h)

/-- C8: every non-empty stripped line splits into a one-character tag plus
value (a non-empty list of characters is a cons), so the FormatError
trigger condition is unsatisfiable, and init_from_qif never raises
FormatError on any input — the conditional claim holds with an empty
trigger set, and no other line raises this error either. -/
theorem init_from_qif_formatError_characterization :
    (∀ l : PyStr, pyStrip l ≠ [] → ∃ c cs, pyStrip l = c :: cs)
    ∧ ∀ lines : List PyStr, init_from_qif lines ≠ .error .formatError := by
  constructor
  · intro l h
    rcases hp : pyStrip l with _ | ⟨c, cs⟩
    · exact absurd hp h
    · exact ⟨c, cs, rfl⟩
  · intro lines hc
    unfold init_from_qif at hc
    cases h : runParse ⟨[], [], none, [], none⟩ lines with
    | ok st => rw [h] at hc; exact absurd hc (by simp [Except.map])
    | error e =>
      rw [h] at hc
      simp only [Except.map, Except.error.injEq] at hc
      exact runParse_ne_formatError lines _ (hc ▸ h)

/-- Witness for C8 at concrete inputs: a concrete non-empty line splits,
and a concrete parse does not produce FormatError. -/
theorem init_from_qif_formatError_characterization_witness :
    (∃ c cs, pyStrip "D12/31/21".data = c :: cs)
    ∧ init_from_qif ["C".data] ≠ .error .formatError :=
  ⟨init_from_qif_formatError_characterization.1 "D12/31/21".data (by decide),
   init_from_qif_formatError_characterization.2 ["C".data]⟩

/-! Claim C2. -/

/-- Keys of a dict after one assignment. -/
theorem mem_keys_dictSet [DecidableEq α] (d : List (α × β)) (a : α) (b : β) (k : α) :
    k ∈ (dictSet d a b).map Prod.fst ↔ k ∈ d.map Prod.fst ∨ k = a := by
  unfold dictSet
  by_cases h : dictContains d a
  · rw [if_pos h, List.map_map]
    constructor
    · intro hm
      obtain ⟨kv, hkm, he⟩ := List.mem_map.mp hm
      by_cases hk : kv.1 = a
      · right
        simpa [hk] using he.symm
      · left
        refine List.mem_map.mpr ⟨kv, hkm, ?_⟩
        simpa [Function.comp, hk] using he
    · rintro (hm | rfl)
      · obtain ⟨kv, hkm, he⟩ := List.mem_map.mp hm
        by_cases hk : kv.1 = a
        · exact List.mem_map.mpr ⟨kv, hkm, by simp [Function.comp, hk, ← he]⟩
        · exact List.mem_map.mpr ⟨kv, hkm, by simpa [Function.comp, hk] using he⟩
      · obtain ⟨kv, hkm, hk⟩ := List.mem_map.mp ((dictContains_iff d k).mp h)
        exact List.mem_map.mpr ⟨kv, hkm, by simp [Function.comp, hk]⟩
  · rw [if_neg h]
    simp [or_comm]

/-- Keys present after folding a sequence of assignments, as performed by
setting transaction fields one after another in any order. -/
theorem mem_keys_foldl_dictSet (sets : List (PyStr × PyStr)) :
    ∀ (d : PyDict) (k : PyStr),
      (k ∈ (sets.foldl (fun acc kv => dictSet acc kv.1 kv.2) d).map Prod.fst
        ↔ k ∈ d.map Prod.fst ∨ k ∈ sets.map Prod.fst) := by
  induction sets with
  | nil => intro d k; simp
  | cons kv sets ih =>
    intro d k
    rw [List.foldl_cons, ih (dictSet d kv.1 kv.2) k, mem_keys_dictSet]
    simp only [List.map_cons, List.mem_cons]
    tauto

/-- Presence in dictLookup agrees with dictContains. -/
theorem dictLookup_isSome_eq [DecidableEq α] (d : List (α × β)) (k : α) :
    (dictLookup d k).isSome = dictContains d k := by
  induction d with
  | nil => rfl
  | cons kv d ih =>
    by_cases h : kv.1 = k
    · simp [dictLookup, dictContains, h]
    · simpa [dictLookup, dictContains, h] using ih

/-- Keys of sort_transaction are the canonical tags present in the record. -/
theorem map_fst_filterMap_lookup (txn : PyDict) (l : List PyStr) :
    (l.filterMap (fun f => (dictLookup txn f).map (fun v => (f, v)))).map Prod.fst
      = l.filter (fun f => (dictLookup txn f).isSome) := by
  induction l with
  | nil => rfl
  | cons f l ih =>
    cases h : dictLookup txn f with
    | none => simp [List.filterMap_cons, List.filter_cons, h, ih]
    | some v => simp [List.filterMap_cons, List.filter_cons, h, ih]

/-- Values emitted by sort_transaction are the record's stored values. -/
theorem mem_sort_transaction (txn : PyDict) (kv : PyStr × PyStr)
    (h : kv ∈ sort_transaction txn) : dictLookup txn kv.1 = some kv.2 := by
  unfold sort_transaction at h
  rw [List.mem_filterMap] at h
  obtain ⟨f, _, he⟩ := h
  cases hl : dictLookup txn f with
  | none => rw [hl] at he; simp at he
  | some v =>
    rw [hl] at he
    simp only [Option.map_some', Option.some.injEq] at he
    subst he
    exact hl

/-- C2: for a transaction record built by setting fields in any order,
serialization emits exactly the tags present, in the fixed canonical
order [C, D, N, P, T, L, ^] filtered to the tags actually set, with each
tag paired with its stored value. -/
theorem sort_transaction_canonical (sets : List (PyStr × PyStr)) :
    ((sort_transaction (sets.foldl (fun d kv => dictSet d kv.1 kv.2) [])).map Prod.fst
        = field_order.filter (fun f => decide (f ∈ sets.map Prod.fst)))
    ∧ ∀ kv ∈ sort_transaction (sets.foldl (fun d kv => dictSet d kv.1 kv.2) []),
        dictLookup (sets.foldl (fun d kv => dictSet d kv.1 kv.2) []) kv.1 = some kv.2 := by
  constructor
  · unfold sort_transaction
    rw [map_fst_filterMap_lookup]
    apply List.filter_congr
    intro f _
    rw [dictLookup_isSome_eq]
    by_cases hf : f ∈ sets.map Prod.fst
    · rw [decide_eq_true hf]
      exact (dictContains_iff _ f).mpr ((mem_keys_foldl_dictSet sets [] f).mpr (Or.inr hf))
    · rw [decide_eq_false hf]
      cases hc : dictContains (sets.foldl (fun d kv => dictSet d kv.1 kv.2) []) f
      · rfl
      · exfalso
        rcases (mem_keys_foldl_dictSet sets [] f).mp ((dictContains_iff _ f).mp hc) with h0 | h1
        · simp at h0
        · exact hf h1
  · intro kv hkv
    exact mem_sort_transaction _ kv hkv

/-- Witness for C2 at the spec's example: fields set in the order
[category, amount, payee, date] serialize in the order
[date, payee, amount, category], with the date's stored value intact. -/
theorem sort_transaction_canonical_witness :
    ((sort_transaction ([(TxnCategory, "Expenses:Misc".data), (TxnAmount, "-100.00".data),
        (TxnPayee, "Test Payee".data), (TxnDate, "12/31/21".data)].foldl
          (fun d kv => dictSet d kv.1 kv.2) [])).map Prod.fst
      = [TxnDate, TxnPayee, TxnAmount, TxnCategory])
    ∧ dictLookup ([(TxnCategory, "Expenses:Misc".data), (TxnAmount, "-100.00".data),
        (TxnPayee, "Test Payee".data), (TxnDate, "12/31/21".data)].foldl
          (fun d kv => dictSet d kv.1 kv.2) []) TxnDate = some "12/31/21".data := by
  have h := sort_transaction_canonical
    [(TxnCategory, "Expenses:Misc".data), (TxnAmount, "-100.00".data),
     (TxnPayee, "Test Payee".data), (TxnDate, "12/31/21".data)]
  exact ⟨h.1.trans (by decide), h.2 (TxnDate, "12/31/21".data) (by decide)⟩

/-! Claim C6. -/

/-- Updating an existing key in place: find? locates the updated pair. -/
theorem find?_map_update_self [DecidableEq α] (d : List (α × β)) (k : α) (v : β)
    (h : dictContains d k = true) :
    List.find? (fun kv => kv.1 = k) (d.map (fun kv => if kv.1 = k then (k, v) else kv))
      = some (k, v) := by
  induction d with
  | nil => simp [dictContains] at h
  | cons kv d ih =>
    rw [List.map_cons]
    by_cases hk : kv.1 = k
    · rw [if_pos hk]
      simp
    · rw [if_neg hk]
      have hd : dictContains d k = true := by
        unfold dictContains at h ⊢
        simpa [List.any_cons, hk] using h
      rw [List.find?_cons_of_neg _ (by simpa using hk)]
      exact ih hd

/-- Updating key k does not disturb searches for a different key. -/
theorem find?_map_update_ne [DecidableEq α] (d : List (α × β)) (k q : α) (v : β)
    (hne : q ≠ k) :
    List.find? (fun kv => kv.1 = q) (d.map (fun kv => if kv.1 = k then (k, v) else kv))
      = List.find? (fun kv => kv.1 = q) d := by
  induction d with
  | nil => rfl
  | cons kv d ih =>
    rw [List.map_cons]
    by_cases hk : kv.1 = k
    · rw [if_pos hk]
      rw [List.find?_cons_of_neg _ (by simp [Ne.symm hne]),
          List.find?_cons_of_neg _ (by simp [hk, Ne.symm hne])]
      exact ih
    · rw [if_neg hk]
      by_cases hq : kv.1 = q
      · rw [List.find?_cons_of_pos _ (by simp [hq]), List.find?_cons_of_pos _ (by simp [hq])]
      · rw [List.find?_cons_of_neg _ (by simp [hq]), List.find?_cons_of_neg _ (by simp [hq])]
        exact ih

/-- Reading back the key just assigned. -/
theorem dictLookup_dictSet_self [DecidableEq α] (d : List (α × β)) (k : α) (v : β) :
    dictLookup (dictSet d k v) k = some v := by
  unfold dictSet
  by_cases h : dictContains d k
  · rw [if_pos h]
    unfold dictLookup
    rw [find?_map_update_self d k v h]
    rfl
  · rw [if_neg h]
    have hc : dictContains d k = false := Bool.eq_false_iff.mpr h
    have h2 := dictLookup_isSome_eq d k
    rw [hc] at h2
    have h3 : List.find? (fun kv => kv.1 = k) d = none := by
      have h4 : dictLookup d k = none := by
        cases h5 : dictLookup d k
        · rfl
        · rw [h5] at h2; simp at h2
      unfold dictLookup at h4
      exact Option.map_eq_none'.mp h4
    unfold dictLookup
    rw [List.find?_append, h3]
    simp

/-- Every entry of a dict after assignment is an old entry or the new pair. -/
theorem mem_dictSet [DecidableEq α] (d : List (α × β)) (k : α) (v : β) (cp : α × β)
    (h : cp ∈ dictSet d k v) : cp ∈ d ∨ cp = (k, v) := by
  unfold dictSet at h
  by_cases hc : dictContains d k
  · rw [if_pos hc] at h
    obtain ⟨kv, hm, he⟩ := List.mem_map.mp h
    by_cases hk : kv.1 = k
    · rw [if_pos hk] at he
      right
      exact he.symm
    · rw [if_neg hk] at he
      left
      exact he ▸ hm
  · rw [if_neg hc] at h
    rcases List.mem_append.mp h with h | h
    · left; exact h
    · right; simpa using h

/-- A successful lookup comes from an entry of the dict. -/
theorem dictLookup_mem [DecidableEq α] (d : List (α × β)) (k : α) (v : β)
    (h : dictLookup d k = some v) : ∃ kv ∈ d, kv.1 = k ∧ kv.2 = v := by
  unfold dictLookup at h
  cases hf : List.find? (fun kv => kv.1 = k) d with
  | none => rw [hf] at h; simp at h
  | some kv =>
    rw [hf] at h
    simp only [Option.map_some', Option.some.injEq] at h
    exact ⟨kv, List.mem_of_find?_eq_some hf, by simpa using List.find?_some hf, h⟩

/-- The category key is present after the guard of update_lookup. -/
theorem dictContains_ensureCategory (store : Lookup) (category : PyStr) :
    dictContains (ensureCategory store category) category = true := by
  unfold ensureCategory
  by_cases h : dictContains store category
  · rwa [if_pos h]
  · rw [if_neg h, ← dictLookup_isSome_eq, dictLookup_dictSet_self]
    rfl

/-- A rule whose pattern is already present makes update_lookup a no-op. -/
theorem update_lookup_noop (store : Lookup) (category pattern match_type : PyStr)
    (h : (dictGetD store category []).any (fun e => e.payee = pattern) = true) :
    update_lookup store category pattern match_type = store := by
  have hc : dictContains store category = true := by
    cases hcc : dictContains store category
    · exfalso
      have h2 := dictLookup_isSome_eq store category
      rw [hcc] at h2
      have h3 : dictLookup store category = none := by
        cases h4 : dictLookup store category
        · rfl
        · rw [h4] at h2; simp at h2
      rw [dictGetD, h3] at h
      simp at h
    · rfl
  have hens : ensureCategory store category = store := by
    unfold ensureCategory
    rw [if_pos hc]
  unfold update_lookup
  rw [hens, if_pos h]

/-- Second insertion of an identical pattern is the identity. -/
theorem update_lookup_idem (store : Lookup) (category pattern match_type : PyStr) :
    update_lookup (update_lookup store category pattern match_type) category pattern match_type
      = update_lookup store category pattern match_type := by
  by_cases h : (dictGetD (ensureCategory store category) category []).any
      (fun e => e.payee = pattern) = true
  · have h1 : update_lookup store category pattern match_type
        = ensureCategory store category := by
      unfold update_lookup
      rw [if_pos h]
    rw [h1]
    exact update_lookup_noop _ category pattern match_type h
  · have h1 : update_lookup store category pattern match_type
        = dictSet (ensureCategory store category) category
            (dictGetD (ensureCategory store category) category []
              ++ [⟨pattern, match_type⟩]) := by
      unfold update_lookup
      rw [if_neg h]
    rw [h1]
    apply update_lookup_noop
    rw [dictGetD, dictLookup_dictSet_self]
    simp [List.any_append]

/-- Insertion preserves the per-category distinct-pattern invariant. -/
theorem update_lookup_nodup (store : Lookup) (category pattern match_type : PyStr)
    (h : NoDupPatterns store) :
    NoDupPatterns (update_lookup store category pattern match_type) := by
  have hens : NoDupPatterns (ensureCategory store category) := by
    unfold ensureCategory
    by_cases hc : dictContains store category
    · rw [if_pos hc]; exact h
    · rw [if_neg hc]
      intro cp hcp
      rcases mem_dictSet _ _ _ _ hcp with hm | hcpe
      · exact h cp hm
      · rw [hcpe]; simp
  unfold update_lookup
  by_cases hany : (dictGetD (ensureCategory store category) category []).any
      (fun e => e.payee = pattern) = true
  · rw [if_pos hany]; exact hens
  · rw [if_neg hany]
    intro cp hcp
    rcases mem_dictSet _ _ _ _ hcp with hm | hcpe
    · exact hens cp hm
    · rw [hcpe]
      show ((dictGetD (ensureCategory store category) category []
          ++ [Rule.mk pattern match_type]).map Rule.payee).Nodup
      rw [List.map_append]
      cases hl : dictLookup (ensureCategory store category) category with
      | none =>
        rw [dictGetD, hl]
        simp
      | some rs =>
        rw [dictGetD, hl]
        simp only [Option.getD_some]
        obtain ⟨kv, hkv, hk1, hk2⟩ := dictLookup_mem _ _ _ hl
        have hnd : (rs.map Rule.payee).Nodup := hk2 ▸ hens kv hkv
        have hnp : pattern ∉ rs.map Rule.payee := by
          intro hp
          obtain ⟨r, hr, hrp⟩ := List.mem_map.mp hp
          apply hany
          rw [dictGetD, hl]
          simp only [Option.getD_some, List.any_eq_true, decide_eq_true_eq]
          exact ⟨r, hr, hrp⟩
        rw [List.nodup_append]
        refine ⟨hnd, List.nodup_singleton _, ?_⟩
        intro a ha hb
        simp at hb
        exact hnp (hb ▸ ha)

/-- C6: rule insertion is idempotent — inserting a (category, pattern,
kind) whose pattern already appears in that category's rule list leaves
the store unchanged, a repeated insertion after a first call is the
identity, and no two rules within one category ever share an identical
pattern string (the invariant is preserved by every insertion). -/
theorem update_lookup_idempotent (store : Lookup) (category pattern match_type : PyStr) :
    ((dictGetD store category []).any (fun e => e.payee = pattern) = true →
      update_lookup store category pattern match_type = store)
    ∧ update_lookup (update_lookup store category pattern match_type)
        category pattern match_type
      = update_lookup store category pattern match_type
    ∧ (NoDupPatterns store → NoDupPatterns (update_lookup store category pattern match_type)) :=
  ⟨update_lookup_noop store category pattern match_type,
   update_lookup_idem store category pattern match_type,
   update_lookup_nodup store category pattern match_type⟩

/-- Witness for C6 at a concrete store: re-inserting pattern acme into
Groceries is a no-op, and the invariant holds after insertion. -/
theorem update_lookup_idempotent_witness :
    (update_lookup [("Groceries".data, [⟨"acme".data, "literal".data⟩])]
        "Groceries".data "acme".data "literal".data
      = [("Groceries".data, [⟨"acme".data, "literal".data⟩])])
    ∧ NoDupPatterns (update_lookup [("Groceries".data, [⟨"acme".data, "literal".data⟩])]
        "Groceries".data "acme".data "literal".data) := by
  have h := update_lookup_idempotent [("Groceries".data, [⟨"acme".data, "literal".data⟩])]
    "Groceries".data "acme".data "literal".data
  exact ⟨h.1 (by decide), h.2.2 (by unfold NoDupPatterns; decide)⟩

/-! Claim C1. -/

/-- C1, counterexample: a QIF document whose transaction uses the
canonical field order (payee line, then terminator) but whose payee value
carries a leading space is parsed (the value is trimmed to "ACME") and
re-serialized to different bytes, so write after parse is not the
identity on all canonical-field-order inputs. -/
theorem qif_roundtrip_counterexample :
    (init_from_qif (pySplit '\n' "!Account\n^\n!Type:Bank\nP ACME\n^\n".data)).map qifContent
      ≠ .ok "!Account\n^\n!Type:Bank\nP ACME\n^\n".data
    ∧ (init_from_qif (pySplit '\n' "!Account\n^\n!Type:Bank\nP ACME\n^\n".data)).map
        (fun d => d.transactions.map (fun tx => dictLookup tx TxnPayee))
      = .ok [some "ACME".data] := by
  constructor
  · decide
  · decide

/-- A dropWhile that preserves length is the identity. -/
theorem dropWhile_eq_self_of_length {p : Char → Bool} {l : List Char}
    (h : (l.dropWhile p).length = l.length) : l.dropWhile p = l :=
  (List.dropWhile_sublist _).eq_of_length h

/-- A string equal to its own strip is untouched by each one-sided pass. -/
theorem pyStrip_eq_self_parts (s : PyStr) (h : pyStrip s = s) :
    s.dropWhile Char.isWhitespace = s
    ∧ s.reverse.dropWhile Char.isWhitespace = s.reverse := by
  have hlen := congrArg List.length h
  unfold pyStrip at hlen
  rw [List.length_reverse] at hlen
  have l1 : (s.dropWhile Char.isWhitespace).length ≤ s.length :=
    (List.dropWhile_sublist _).length_le
  have l2 : ((s.dropWhile Char.isWhitespace).reverse.dropWhile Char.isWhitespace).length
      ≤ (s.dropWhile Char.isWhitespace).length := by
    calc ((s.dropWhile Char.isWhitespace).reverse.dropWhile Char.isWhitespace).length
        ≤ (s.dropWhile Char.isWhitespace).reverse.length :=
          (List.dropWhile_sublist _).length_le
      _ = (s.dropWhile Char.isWhitespace).length := List.length_reverse _
  have e1 : (s.dropWhile Char.isWhitespace).length = s.length := by omega
  have hd : s.dropWhile Char.isWhitespace = s := dropWhile_eq_self_of_length e1
  refine ⟨hd, ?_⟩
  apply dropWhile_eq_self_of_length
  rw [hd] at hlen
  rw [List.length_reverse]
  exact hlen

/-- The head survives a dropWhile that returns the list unchanged. -/
theorem dropWhile_head_false {p : Char → Bool} {y : Char} {ys : List Char}
    (h : (y :: ys).dropWhile p = y :: ys) : p y = false := by
  cases hp : p y
  · rfl
  · exfalso
    rw [List.dropWhile_cons, hp] at h
    simp only [if_true] at h
    have hlen := congrArg List.length h
    have hle : (ys.dropWhile p).length ≤ ys.length := (List.dropWhile_sublist _).length_le
    simp only [List.length_cons] at hlen
    omega

/-- Stripping a non-whitespace character consed onto a stripped string. -/
theorem strip_cons {c : Char} {v : PyStr} (hc : c.isWhitespace = false)
    (hv : pyStrip v = v) : pyStrip (c :: v) = c :: v := by
  obtain ⟨_, h2⟩ := pyStrip_eq_self_parts v hv
  unfold pyStrip
  rw [List.dropWhile_cons, hc]
  simp only [Bool.false_eq_true, if_false]
  rw [List.reverse_cons]
  cases hvr : v.reverse with
  | nil =>
    have hv0 : v = [] := by simpa using congrArg List.reverse hvr
    subst hv0
    simp only [List.reverse_nil, List.nil_append]
    rw [List.dropWhile_cons, hc]
    simp
  | cons y ys =>
    have hy : Char.isWhitespace y = false := dropWhile_head_false (hvr ▸ h2)
    have hstep : List.dropWhile Char.isWhitespace ((y :: ys) ++ [c]) = (y :: ys) ++ [c] := by
      rw [List.cons_append, List.dropWhile_cons, hy]
      simp
    rw [hstep, ← hvr, List.reverse_append, List.reverse_reverse]
    simp

/-- Stripping a string whose leading block is non-whitespace and whose
tail is stripped. -/
theorem strip_append_left {t : PyStr} (pre : PyStr)
    (hpre : ∀ c ∈ pre, c.isWhitespace = false) (ht : pyStrip t = t) :
    pyStrip (pre ++ t) = pre ++ t := by
  induction pre with
  | nil => simpa using ht
  | cons a pre ih =>
    rw [List.cons_append]
    exact strip_cons (hpre a (by simp)) (ih (fun c hc => hpre c (by simp [hc])))

/-- Splitting a string without the separator yields one piece. -/
theorem pySplit_not_mem (sep : Char) (l : PyStr) (h : sep ∉ l) : pySplit sep l = [l] := by
  induction l with
  | nil => rfl
  | cons c cs ih =>
    rw [pySplit, if_neg (by intro hc; exact h (hc ▸ List.mem_cons_self c cs)),
        ih (fun hc => h (List.mem_cons_of_mem c hc))]

/-- Splitting peels off a separator-free head piece. -/
theorem pySplit_append_sep_cons (sep : Char) (l rest : PyStr) (h : sep ∉ l) :
    pySplit sep (l ++ sep :: rest) = l :: pySplit sep rest := by
  induction l with
  | nil => rw [List.nil_append, pySplit, if_pos rfl]
  | cons c cs ih =>
    rw [List.cons_append, pySplit, if_neg (by intro hc; exact h (hc ▸ List.mem_cons_self c cs)),
        ih (fun hc => h (List.mem_cons_of_mem c hc))]

/-- Splitting the newline-joined written lines recovers the lines (plus
one empty trailing piece, which the parser skips as blank). -/
theorem pySplit_join_newline (ls : List PyStr) (h : ∀ l ∈ ls, '\n' ∉ l) :
    pySplit '\n' ((ls.map (fun l => l ++ ['\n'])).flatten) = ls ++ [[]] := by
  induction ls with
  | nil => rfl
  | cons l ls ih =>
    rw [List.map_cons, List.flatten_cons, List.append_assoc, List.singleton_append,
        pySplit_append_sep_cons '\n' l _ (h l (by simp)),
        ih (fun x hx => h x (by simp [hx]))]
    rfl

/-- Parser step on the !Account sentinel line: reset the header, record
the sentinel and enter the account section. -/
theorem step_acct (st : ParseState) :
    initFromQifStep st AcctHeader
      = .ok ⟨[(AcctHeader, [])], st.transactions, st.transaction_type,
             st.current_transaction, some true⟩ := rfl

/-- Parser step on the terminator while inside the account section. -/
theorem step_end_header (acc : PyDict) (txs : List PyDict) (ty : Option PyStr) (cur : PyDict) :
    initFromQifStep ⟨acc, txs, ty, cur, some true⟩ RecordEnd
      = .ok ⟨dictSet acc RecordEnd [], txs, ty, cur, some false⟩ := rfl

/-- Parser step on the terminator while inside the transaction section:
close the current transaction and start a fresh one. -/
theorem step_end_txn (acc : PyDict) (txs : List PyDict) (ty : Option PyStr) (cur : PyDict) :
    initFromQifStep ⟨acc, txs, ty, cur, some false⟩ RecordEnd
      = .ok ⟨acc, txs ++ [dictSet cur RecordEnd []], ty, [], some false⟩ := rfl

/-- Parser step on a generic tag+value line inside the account section. -/
theorem step_entry_header (acc : PyDict) (txs : List PyDict) (ty : Option PyStr)
    (cur : PyDict) (c : Char) (v : PyStr)
    (hcw : c.isWhitespace = false) (hcb : c ≠ '!') (hcc : c ≠ '^') (hv : pyStrip v = v) :
    initFromQifStep ⟨acc, txs, ty, cur, some true⟩ (c :: v)
      = .ok ⟨dictSet acc [c] v, txs, ty, cur, some true⟩ := by
  have h1 : ¬((c :: v) = AcctHeader) := by
    intro he
    have ha : AcctHeader = '!' :: ['A', 'c', 'c', 'o', 'u', 'n', 't'] := rfl
    rw [ha] at he
    injection he with he1 _
    exact hcb he1
  have h2 : ¬(TxnHeader.isPrefixOf (c :: v) = true) := by
    intro hp
    have ht : TxnHeader = '!' :: ['T', 'y', 'p', 'e'] := rfl
    rw [ht, List.isPrefixOf] at hp
    simp only [Bool.and_eq_true, beq_iff_eq] at hp
    exact hcb hp.1.symm
  have h3 : ¬((c :: v) = RecordEnd) := by
    intro he
    have hr : RecordEnd = '^' :: [] := rfl
    rw [hr] at he
    injection he with he1 _
    exact hcc he1
  simp only [initFromQifStep, strip_cons hcw hv, if_neg h1, if_neg h2, if_neg h3, hv]

/-- Parser step on a generic tag+value line inside the transaction
section. -/
theorem step_entry_txn (acc : PyDict) (txs : List PyDict) (ty : Option PyStr)
    (cur : PyDict) (c : Char) (v : PyStr)
    (hcw : c.isWhitespace = false) (hcb : c ≠ '!') (hcc : c ≠ '^') (hv : pyStrip v = v) :
    initFromQifStep ⟨acc, txs, ty, cur, some false⟩ (c :: v)
      = .ok ⟨acc, txs, ty, dictSet cur [c] v, some false⟩ := by
  have h1 : ¬((c :: v) = AcctHeader) := by
    intro he
    have ha : AcctHeader = '!' :: ['A', 'c', 'c', 'o', 'u', 'n', 't'] := rfl
    rw [ha] at he
    injection he with he1 _
    exact hcb he1
  have h2 : ¬(TxnHeader.isPrefixOf (c :: v) = true) := by
    intro hp
    have ht : TxnHeader = '!' :: ['T', 'y', 'p', 'e'] := rfl
    rw [ht, List.isPrefixOf] at hp
    simp only [Bool.and_eq_true, beq_iff_eq] at hp
    exact hcb hp.1.symm
  have h3 : ¬((c :: v) = RecordEnd) := by
    intro he
    have hr : RecordEnd = '^' :: [] := rfl
    rw [hr] at he
    injection he with he1 _
    exact hcc he1
  simp only [initFromQifStep, strip_cons hcw hv, if_neg h1, if_neg h2, if_neg h3, hv]

/-- Parser step on the !Type line: store the token after the colon. -/
theorem step_type (acc : PyDict) (txs : List PyDict) (ty : Option PyStr)
    (cur : PyDict) (ias : Option Bool) (t : PyStr)
    (ht : pyStrip t = t) (hc : ':' ∉ t) :
    initFromQifStep ⟨acc, txs, ty, cur, ias⟩ ('!' :: 'T' :: 'y' :: 'p' :: 'e' :: ':' :: t)
      = .ok ⟨acc, txs, some t, cur, ias⟩ := by
  have hline : pyStrip ('!' :: 'T' :: 'y' :: 'p' :: 'e' :: ':' :: t)
      = '!' :: 'T' :: 'y' :: 'p' :: 'e' :: ':' :: t :=
    strip_append_left ['!', 'T', 'y', 'p', 'e', ':'] (by decide) ht
  have h1 : ¬(('!' :: 'T' :: 'y' :: 'p' :: 'e' :: ':' :: t) = AcctHeader) := by
    intro he
    have ha : AcctHeader = '!' :: 'A' :: ['c', 'c', 'o', 'u', 'n', 't'] := rfl
    rw [ha] at he
    injection he with _ he2
    injection he2 with he3 _
    exact absurd he3 (by decide)
  have h2 : TxnHeader.isPrefixOf ('!' :: 'T' :: 'y' :: 'p' :: 'e' :: ':' :: t) = true := rfl
  have h3 : pySplit ':' ('!' :: 'T' :: 'y' :: 'p' :: 'e' :: ':' :: t)
      = [['!', 'T', 'y', 'p', 'e'], t] := by
    rw [show ('!' :: 'T' :: 'y' :: 'p' :: 'e' :: ':' :: t : PyStr)
          = ['!', 'T', 'y', 'p', 'e'] ++ ':' :: t from rfl,
        pySplit_append_sep_cons ':' _ t (by decide), pySplit_not_mem ':' t hc]
  simp only [initFromQifStep, hline, if_neg h1, h2, if_pos, h3]
  rfl

/-- runParse distributes over appending line blocks. -/
theorem runParse_append (xs ys : List PyStr) : ∀ st : ParseState,
    runParse st (xs ++ ys)
      = match runParse st xs with
        | .ok st' => runParse st' ys
        | .error e => .error e := by
  induction xs with
  | nil => intro st; rfl
  | cons x xs ih =>
    intro st
    rw [List.cons_append, runParse]
    cases h : initFromQifStep st x with
    | ok st' =>
      rw [runParse, h]
      exact ih st'
    | error e =>
      rw [runParse, h]

/-- Unpacking the goodValue hygiene flag. -/
theorem goodValue_spec (v : PyStr) (h : goodValue v = true) :
    pyStrip v = v ∧ '\n' ∉ v := by
  unfold goodValue at h
  simp only [Bool.and_eq_true, beq_iff_eq, decide_eq_true_eq] at h
  exact h

/-- Unpacking the goodHeaderEntry shape flag. -/
theorem goodHeaderEntry_spec (kv : PyStr × PyStr) (h : goodHeaderEntry kv = true) :
    ∃ c, kv.1 = [c] ∧ c.isWhitespace = false ∧ c ≠ '!' ∧ c ≠ '^'
      ∧ pyStrip kv.2 = kv.2 ∧ '\n' ∉ kv.2 := by
  unfold goodHeaderEntry at h
  rcases hk : kv.1 with _ | ⟨c, _ | ⟨c2, rest⟩⟩
  · rw [hk] at h; cases h
  · rw [hk] at h
    simp only [Bool.and_eq_true, Bool.not_eq_true', decide_eq_true_eq] at h
    obtain ⟨⟨⟨hw, hb⟩, hc⟩, hv⟩ := h
    obtain ⟨hs, hn⟩ := goodValue_spec kv.2 hv
    exact ⟨c, rfl, hw, hb, hc, hs, hn⟩
  · rw [hk] at h; cases h

/-- Running the parser over the mid-header lines accumulates them in
order onto the account header. -/
theorem runParse_header_mid (mid : PyDict) :
    ∀ (acc : PyDict), (∀ kv ∈ mid, goodHeaderEntry kv = true) →
      (∀ kv ∈ mid, kv.1 ∉ acc.map Prod.fst) → (mid.map Prod.fst).Nodup →
      ∀ (txs : List PyDict) (ty : Option PyStr) (cur : PyDict),
      runParse ⟨acc, txs, ty, cur, some true⟩ (mid.map (fun kv => kv.1 ++ kv.2))
        = .ok ⟨acc ++ mid, txs, ty, cur, some true⟩ := by
  induction mid with
  | nil => intro acc _ _ _ txs ty cur; simp [runParse]
  | cons kv mid ih =>
    intro acc hgood hfresh hnd txs ty cur
    obtain ⟨c, hk1, hcw, hcb, hcc, hsv, _⟩ := goodHeaderEntry_spec kv (hgood kv (by simp))
    rw [List.map_cons, runParse]
    rw [show kv.1 ++ kv.2 = c :: kv.2 by rw [hk1]; rfl]
    rw [step_entry_header acc txs ty cur c kv.2 hcw hcb hcc hsv]
    have hset : dictSet acc [c] kv.2 = acc ++ [kv] := by
      rw [← hk1]
      rw [dictSet_fresh acc kv.1 kv.2 (hfresh kv (by simp))]
    rw [hset]
    have hfresh2 : ∀ kv2 ∈ mid, kv2.1 ∉ (acc ++ [kv]).map Prod.fst := by
      intro kv2 hm2
      rw [List.map_append, List.mem_append]
      rintro (hmem | hmem)
      · exact hfresh kv2 (by simp [hm2]) hmem
      · simp only [List.map_cons, List.map_nil, List.mem_singleton] at hmem
        rw [List.map_cons, List.nodup_cons] at hnd
        exact hnd.1 (hmem ▸ List.mem_map_of_mem Prod.fst hm2)
    have hnd2 : (mid.map Prod.fst).Nodup := by
      rw [List.map_cons, List.nodup_cons] at hnd
      exact hnd.2
    have hfin := ih (acc ++ [kv]) (fun x hx => hgood x (by simp [hx])) hfresh2 hnd2 txs ty cur
    rw [List.append_assoc] at hfin
    exact hfin

/-- Running the parser over the leading entries of a transaction
accumulates them in order onto the current transaction. -/
theorem runParse_txn_front (front : PyDict) :
    ∀ (cur : PyDict),
      (∀ kv ∈ front, (∃ c, kv.1 = [c] ∧ c.isWhitespace = false ∧ c ≠ '!' ∧ c ≠ '^')
        ∧ pyStrip kv.2 = kv.2) →
      (∀ kv ∈ front, kv.1 ∉ cur.map Prod.fst) → (front.map Prod.fst).Nodup →
      ∀ (acc : PyDict) (txs : List PyDict) (ty : Option PyStr),
      runParse ⟨acc, txs, ty, cur, some false⟩ (front.map (fun kv => kv.1 ++ kv.2))
        = .ok ⟨acc, txs, ty, cur ++ front, some false⟩ := by
  induction front with
  | nil => intro cur _ _ _ acc txs ty; simp [runParse]
  | cons kv front ih =>
    intro cur hgood hfresh hnd acc txs ty
    obtain ⟨⟨c, hk1, hcw, hcb, hcc⟩, hsv⟩ := hgood kv (by simp)
    rw [List.map_cons, runParse]
    rw [show kv.1 ++ kv.2 = c :: kv.2 by rw [hk1]; rfl]
    rw [step_entry_txn acc txs ty cur c kv.2 hcw hcb hcc hsv]
    have hset : dictSet cur [c] kv.2 = cur ++ [kv] := by
      rw [← hk1]
      rw [dictSet_fresh cur kv.1 kv.2 (hfresh kv (by simp))]
    rw [hset]
    have hfresh2 : ∀ kv2 ∈ front, kv2.1 ∉ (cur ++ [kv]).map Prod.fst := by
      intro kv2 hm2
      rw [List.map_append, List.mem_append]
      rintro (hmem | hmem)
      · exact hfresh kv2 (by simp [hm2]) hmem
      · simp only [List.map_cons, List.map_nil, List.mem_singleton] at hmem
        rw [List.map_cons, List.nodup_cons] at hnd
        exact hnd.1 (hmem ▸ List.mem_map_of_mem Prod.fst hm2)
    have hnd2 : (front.map Prod.fst).Nodup := by
      rw [List.map_cons, List.nodup_cons] at hnd
      exact hnd.2
    have hfin := ih (cur ++ [kv]) (fun x hx => hgood x (by simp [hx])) hfresh2 hnd2 acc txs ty
    rw [List.append_assoc] at hfin
    exact hfin

/-- Running the parser over the written lines of one well-formed
transaction appends exactly that transaction. -/
theorem runParse_txn (tx : PyDict) (htx : WFTxn tx) (acc : PyDict)
    (txs : List PyDict) (ty : Option PyStr) :
    runParse ⟨acc, txs, ty, [], some false⟩
        ((sort_transaction tx).map (fun kv => kv.1 ++ kv.2))
      = .ok ⟨acc, txs ++ [tx], ty, [], some false⟩ := by
  obtain ⟨hsort, hend, hval⟩ := htx
  have hdecomp : tx = List.filterMap (fun f => (dictLookup tx f).map (fun v => (f, v)))
      [RecordBegin, TxnDate, TxnCheckNumber, TxnPayee, TxnAmount, TxnCategory]
      ++ [(RecordEnd, [])] := by
    conv_lhs => rw [← hsort]
    unfold sort_transaction field_order
    rw [show ([RecordBegin, TxnDate, TxnCheckNumber, TxnPayee, TxnAmount,
          TxnCategory, RecordEnd] : List PyStr)
        = [RecordBegin, TxnDate, TxnCheckNumber, TxnPayee, TxnAmount, TxnCategory]
          ++ [RecordEnd] from rfl]
    rw [List.filterMap_append]
    congr 1
    simp [List.filterMap_cons, hend]
  generalize hfg : List.filterMap (fun f => (dictLookup tx f).map (fun v => (f, v)))
      [RecordBegin, TxnDate, TxnCheckNumber, TxnPayee, TxnAmount, TxnCategory] = front at hdecomp
  have hkeys : front.map Prod.fst
      = [RecordBegin, TxnDate, TxnCheckNumber, TxnPayee, TxnAmount, TxnCategory].filter
          (fun f => (dictLookup tx f).isSome) := by
    rw [← hfg]
    exact map_fst_filterMap_lookup tx _
  have hndkeys : (front.map Prod.fst).Nodup := by
    rw [hkeys]
    exact List.Nodup.filter _ (by decide)
  have hsub : ∀ k ∈ front.map Prod.fst,
      k ∈ ([RecordBegin, TxnDate, TxnCheckNumber, TxnPayee, TxnAmount, TxnCategory] :
        List PyStr) := by
    rw [hkeys]
    intro k hk
    exact (List.mem_filter.mp hk).1
  have hre : RecordEnd ∉ front.map Prod.fst := by
    intro hk
    exact absurd (hsub RecordEnd hk) (by decide)
  have hgood : ∀ kv ∈ front,
      (∃ c, kv.1 = [c] ∧ c.isWhitespace = false ∧ c ≠ '!' ∧ c ≠ '^')
        ∧ pyStrip kv.2 = kv.2 := by
    intro kv hkv
    constructor
    · have h2 := hsub kv.1 (List.mem_map_of_mem Prod.fst hkv)
      simp only [List.mem_cons, List.not_mem_nil, or_false] at h2
      rcases h2 with h | h | h | h | h | h
      · exact ⟨'C', by rw [h]; rfl, by decide, by decide, by decide⟩
      · exact ⟨'D', by rw [h]; rfl, by decide, by decide, by decide⟩
      · exact ⟨'N', by rw [h]; rfl, by decide, by decide, by decide⟩
      · exact ⟨'P', by rw [h]; rfl, by decide, by decide, by decide⟩
      · exact ⟨'T', by rw [h]; rfl, by decide, by decide, by decide⟩
      · exact ⟨'L', by rw [h]; rfl, by decide, by decide, by decide⟩
    · have hmem : kv ∈ tx := by
        rw [hdecomp]
        exact List.mem_append_left _ hkv
      exact (goodValue_spec kv.2 (hval kv hmem)).1
  have hlines : (sort_transaction tx).map (fun kv => kv.1 ++ kv.2)
      = front.map (fun kv => kv.1 ++ kv.2) ++ [RecordEnd] := by
    rw [hsort]
    conv_lhs => rw [hdecomp]
    rw [List.map_append]
    rfl
  rw [hlines, runParse_append]
  rw [runParse_txn_front front [] hgood (by simp) hndkeys acc txs ty]
  have hfin : runParse ⟨acc, txs, ty, front, some false⟩ [RecordEnd]
      = .ok ⟨acc, txs ++ [dictSet front RecordEnd []], ty, [], some false⟩ := rfl
  have hset : dictSet front RecordEnd [] = tx := by
    rw [dictSet_fresh front RecordEnd [] hre, ← hdecomp]
  exact hfin.trans (by rw [hset])

/-- Running the parser over the written lines of the whole transaction
block appends the transactions in order. -/
theorem runParse_txns (txns : List PyDict) :
    ∀ (done : List PyDict), (∀ tx ∈ txns, WFTxn tx) →
      ∀ (acc : PyDict) (ty : Option PyStr),
      runParse ⟨acc, done, ty, [], some false⟩
          ((txns.map (fun tx => (sort_transaction tx).map (fun kv => kv.1 ++ kv.2))).flatten)
        = .ok ⟨acc, done ++ txns, ty, [], some false⟩ := by
  induction txns with
  | nil => intro done _ acc ty; simp [runParse]
  | cons tx txns ih =>
    intro done hwf acc ty
    rw [List.map_cons, List.flatten_cons, runParse_append,
        runParse_txn tx (hwf tx (by simp)) acc done ty]
    have hfin := ih (done ++ [tx]) (fun x hx => hwf x (by simp [hx])) acc ty
    rw [List.append_assoc] at hfin
    exact hfin

/-- Chaining form of runParse_append for a successfully parsed block. -/
theorem runParse_append_ok {xs : List PyStr} {st st' : ParseState}
    (h : runParse st xs = .ok st') (ys : List PyStr) :
    runParse st (xs ++ ys) = runParse st' ys := by
  rw [runParse_append, h]

/-- C1 as amended: for every well-formed document — standard header, a
colon-free trimmed type label, transactions already in canonical field
order closed by an empty terminator, and whitespace-trimmed newline-free
values — parsing the written byte content with init_from_qif recovers the
document exactly, so writing again reproduces the content byte-for-byte. -/
theorem qif_write_parse_roundtrip (doc : QIFDoc) (h : WellFormedDoc doc) :
    init_from_qif (pySplit '\n' (qifContent doc)) = .ok doc
    ∧ (init_from_qif (pySplit '\n' (qifContent doc))).map qifContent
        = .ok (qifContent doc) := by
  have hmain : init_from_qif (pySplit '\n' (qifContent doc)) = .ok doc := by
    obtain ⟨acc_info, txns, tty⟩ := doc
    obtain ⟨hh, hty0, htxs⟩ := h
    simp only at hh hty0 htxs
    obtain ⟨mid, hacc, hmid, hnd⟩ := hh
    rcases hts : tty with _ | t
    · rw [hts] at hty0
      exact ((hty0 : False)).elim
    · rw [hts] at hty0
      have hty : pyStrip t = t ∧ ':' ∉ t ∧ '\n' ∉ t := hty0
      obtain ⟨hstrip_t, hcolon, hnl_t⟩ := hty
      have hlinesnl : ∀ l ∈ writeLines ⟨acc_info, txns, some t⟩, '\n' ∉ l := by
        intro l hl
        unfold writeLines at hl
        simp only at hl
        rw [hacc] at hl
        rcases List.mem_append.mp hl with hl | hl
        · rcases List.mem_append.mp hl with hl | hl
          · obtain ⟨kv, hkv, rfl⟩ := List.mem_map.mp hl
            rcases List.mem_cons.mp hkv with heq | hkv
            · rw [heq]; decide
            · rcases List.mem_append.mp hkv with hkv | hkv
              · obtain ⟨c, hk1, hcw, _, _, _, hnl⟩ := goodHeaderEntry_spec kv (hmid kv hkv)
                rw [hk1]
                intro hmem
                rcases List.mem_append.mp hmem with hmem | hmem
                · simp only [List.mem_singleton] at hmem
                  rw [← hmem] at hcw
                  exact absurd hcw (by decide)
                · exact hnl hmem
              · simp only [List.mem_singleton] at hkv
                rw [hkv]; decide
          · simp only [List.mem_singleton] at hl
            rw [hl]
            intro hmem
            rcases List.mem_append.mp hmem with hmem | hmem
            · exact absurd hmem (by decide)
            · exact hnl_t hmem
        · obtain ⟨ls, hls, hlmem⟩ := List.mem_flatten.mp hl
          obtain ⟨tx, htxmem, rfl⟩ := List.mem_map.mp hls
          obtain ⟨kv, hkv, rfl⟩ := List.mem_map.mp hlmem
          obtain ⟨hsort, hend, hval⟩ := htxs tx htxmem
          intro hmem
          rcases List.mem_append.mp hmem with hmem | hmem
          · have hk : kv.1 ∈ field_order := by
              unfold sort_transaction at hkv
              obtain ⟨f, hf, he⟩ := List.mem_filterMap.mp hkv
              cases hk2 : dictLookup tx f with
              | none => rw [hk2] at he; simp at he
              | some v =>
                rw [hk2] at he
                simp only [Option.map_some', Option.some.injEq] at he
                rw [← he]
                exact hf
            have hfo : ∀ k ∈ field_order, '\n' ∉ k := by decide
            exact hfo kv.1 hk hmem
          · rw [hsort] at hkv
            exact (goodValue_spec kv.2 (hval kv hkv)).2 hmem
      have hsplit : pySplit '\n' (qifContent ⟨acc_info, txns, some t⟩)
          = writeLines ⟨acc_info, txns, some t⟩ ++ [[]] := by
        unfold qifContent
        exact pySplit_join_newline _ hlinesnl
      rw [hsplit]
      have hw : writeLines ⟨acc_info, txns, some t⟩ ++ [[]]
          = [AcctHeader] ++ ((mid.map (fun kv => kv.1 ++ kv.2))
            ++ ([RecordEnd] ++ ([('!' :: 'T' :: 'y' :: 'p' :: 'e' :: ':' :: t)]
              ++ ((txns.map
                    (fun tx => (sort_transaction tx).map (fun kv => kv.1 ++ kv.2))).flatten
                ++ [[]])))) := by
        unfold writeLines
        simp only
        rw [hacc]
        simp only [List.map_cons, List.map_append, List.append_nil, List.cons_append,
          List.nil_append, List.append_assoc]
        rfl
      rw [hw]
      unfold init_from_qif
      have hA : runParse ⟨[], [], none, [], none⟩ [AcctHeader]
          = .ok ⟨[(AcctHeader, [])], [], none, [], some true⟩ := rfl
      have hfreshM : ∀ kv ∈ mid, kv.1 ∉ ([(AcctHeader, ([] : PyStr))].map Prod.fst) := by
        intro kv hkv
        obtain ⟨c, hk1, _, _, _, _, _⟩ := goodHeaderEntry_spec kv (hmid kv hkv)
        rw [hk1]
        simp only [List.map_cons, List.map_nil, List.mem_singleton]
        intro he
        rw [show AcctHeader = '!' :: ['A', 'c', 'c', 'o', 'u', 'n', 't'] from rfl] at he
        injection he with _ he2
        exact absurd he2 (by decide)
      have hM : runParse ⟨[(AcctHeader, [])], [], none, [], some true⟩
            (mid.map (fun kv => kv.1 ++ kv.2))
          = .ok ⟨[(AcctHeader, [])] ++ mid, [], none, [], some true⟩ :=
        runParse_header_mid mid [(AcctHeader, [])] hmid hfreshM hnd [] none []
      have hnotinE : RecordEnd ∉ ([(AcctHeader, ([] : PyStr))] ++ mid).map Prod.fst := by
        rw [List.map_append, List.mem_append]
        rintro (hmem | hmem)
        · simp only [List.map_cons, List.map_nil, List.mem_singleton] at hmem
          exact absurd hmem (by decide)
        · obtain ⟨kv, hkv, he⟩ := List.mem_map.mp hmem
          obtain ⟨c, hk1, _, _, hcc, _, _⟩ := goodHeaderEntry_spec kv (hmid kv hkv)
          rw [hk1] at he
          rw [show RecordEnd = '^' :: [] from rfl] at he
          injection he with he1 _
          exact hcc he1
      have hE : runParse ⟨[(AcctHeader, [])] ++ mid, [], none, [], some true⟩ [RecordEnd]
          = .ok ⟨([(AcctHeader, [])] ++ mid) ++ [(RecordEnd, [])], [], none, [], some false⟩ := by
        rw [runParse, step_end_header, dictSet_fresh _ RecordEnd [] hnotinE]
        rfl
      have hT : runParse ⟨([(AcctHeader, [])] ++ mid) ++ [(RecordEnd, [])], [], none, [],
            some false⟩ [('!' :: 'T' :: 'y' :: 'p' :: 'e' :: ':' :: t)]
          = .ok ⟨([(AcctHeader, [])] ++ mid) ++ [(RecordEnd, [])], [], some t, [],
              some false⟩ := by
        rw [runParse, step_type _ _ _ _ _ t hstrip_t hcolon]
        rfl
      have hX : runParse ⟨([(AcctHeader, [])] ++ mid) ++ [(RecordEnd, [])], [], some t, [],
            some false⟩
            ((txns.map (fun tx => (sort_transaction tx).map (fun kv => kv.1 ++ kv.2))).flatten)
          = .ok ⟨([(AcctHeader, [])] ++ mid) ++ [(RecordEnd, [])], [] ++ txns, some t, [],
              some false⟩ :=
        runParse_txns txns [] htxs (([(AcctHeader, [])] ++ mid) ++ [(RecordEnd, [])]) (some t)
      rw [runParse_append_ok hA, runParse_append_ok hM, runParse_append_ok hE,
          runParse_append_ok hT, runParse_append_ok hX]
      rw [show runParse ⟨([(AcctHeader, [])] ++ mid) ++ [(RecordEnd, [])], [] ++ txns,
            some t, [], some false⟩ [[]]
          = .ok ⟨([(AcctHeader, [])] ++ mid) ++ [(RecordEnd, [])], [] ++ txns,
              some t, [], some false⟩ from rfl]
      rw [show (Except.map (fun st : ParseState =>
            (⟨st.account_info, st.transactions, st.transaction_type⟩ : QIFDoc))
            (.ok ⟨([(AcctHeader, [])] ++ mid) ++ [(RecordEnd, [])], [] ++ txns,
              some t, [], some false⟩) : Except PyErr QIFDoc)
          = .ok ⟨([(AcctHeader, [])] ++ mid) ++ [(RecordEnd, [])], [] ++ txns, some t⟩
          from rfl]
      rw [hacc]
      rfl
  exact ⟨hmain, by rw [hmain]; rfl⟩

/-- Witness for the amended C1 at a concrete well-formed document: a
bank account header, type label Bank, and one canonical transaction. -/
theorem qif_write_parse_roundtrip_witness :
    init_from_qif (pySplit '\n' (qifContent (QIFDoc.mk
        [(AcctHeader, []), (AcctName, "Checking".data), (AcctType, "Bank".data),
         (RecordEnd, [])]
        [[(RecordBegin, []), (TxnDate, "10/11/2023".data), (TxnCheckNumber, "N/A".data),
          (TxnPayee, "ACME".data), (TxnAmount, "-123.45".data),
          (TxnCategory, "Expenses:Misc".data), (RecordEnd, [])]]
        (some "Bank".data))))
      = .ok (QIFDoc.mk
        [(AcctHeader, []), (AcctName, "Checking".data), (AcctType, "Bank".data),
         (RecordEnd, [])]
        [[(RecordBegin, []), (TxnDate, "10/11/2023".data), (TxnCheckNumber, "N/A".data),
          (TxnPayee, "ACME".data), (TxnAmount, "-123.45".data),
          (TxnCategory, "Expenses:Misc".data), (RecordEnd, [])]]
        (some "Bank".data)) :=
  (qif_write_parse_roundtrip
    (QIFDoc.mk
      [(AcctHeader, []), (AcctName, "Checking".data), (AcctType, "Bank".data),
       (RecordEnd, [])]
      [[(RecordBegin, []), (TxnDate, "10/11/2023".data), (TxnCheckNumber, "N/A".data),
        (TxnPayee, "ACME".data), (TxnAmount, "-123.45".data),
        (TxnCategory, "Expenses:Misc".data), (RecordEnd, [])]]
      (some "Bank".data))
    ⟨⟨[(AcctName, "Checking".data), (AcctType, "Bank".data)], rfl, by decide, by decide⟩,
     ⟨by decide, by decide, by decide⟩,
     by
      intro tx htx
      simp only [List.mem_singleton] at htx
      subst htx
      exact ⟨by decide, by decide, by decide⟩⟩).1
